import Mathlib

/-!
Verification of the LB-t lattice-Boltzmann solver core (C++ sources under
src/): shallow embedding of the constructors, the continuum field
initialisation, the flat-buffer indexing, the cell load routine and the
time-stepping driver of main.cpp, together with theorems about them.

Machine floating-point values are modelled by exact rationals: every
operation the verified claims depend on (assignment, copy, the closed-form
parameter formulas) is exact, so the rational model is faithful for them.
-/

/-- `EXIT_SUCCESS` of `<stdlib.h>`. -/
def EXIT_SUCCESS : Nat := 0

/-- `EXIT_FAILURE` of `<stdlib.h>`. -/
def EXIT_FAILURE : Nat := 1

/-- Modelled from the spec: the lattice descriptor `lattice::D3Q27`
(`lattice/D3Q27.hpp` is not among the provided sources).  The spec lists the
lattice speed of sound `CS` among the compile-time constants; for the D3Q27
model `CS^2 = 1/3`. -/
def D3Q27_CS2 : ℚ := 1/3

/-- Result of running a C++ constructor: either the process terminated via
`exit(code)` inside the constructor body, or an object was produced. -/
inductive CtorResult (α : Type) where
  | exited (code : Nat)
  | constructed (obj : α)

/-- The member initialisers of `Population::Population`
(population.hpp lines 73-75), over exact rationals:
`NU_ = U * L / Re`. -/
def populationNU (Re U : ℚ) (L : Nat) : ℚ := U * (L : ℚ) / Re

/-- `TAU_ = NU_ / (CS*CS) + 1/2` (population.hpp line 74). -/
def populationTAU (Re U : ℚ) (L : Nat) : ℚ :=
  populationNU Re U L / D3Q27_CS2 + 1/2

/-- `OMEGA_ = 1 / TAU_` (population.hpp line 74). -/
def populationOMEGA (Re U : ℚ) (L : Nat) : ℚ := 1 / populationTAU Re U L

/-- `OMEGA_M_ = (TAU_ - 1/2) / (LAMBDA_ + 1/2*(TAU_ - 1/2))`
(population.hpp line 75). -/
def populationOMEGA_M (Re U : ℚ) (L : Nat) (LAMBDA : ℚ) : ℚ :=
  (populationTAU Re U L - 1/2) / (LAMBDA + 1/2 * (populationTAU Re U L - 1/2))

/-- The physical-parameter members of a constructed `Population` object,
plus its buffer pointer `F_` (a total map models a non-null buffer). -/
structure PopulationObj where
  F : Nat → ℚ
  NU : ℚ
  TAU : ℚ
  OMEGA : ℚ
  LAMBDA : ℚ
  OMEGA_M : ℚ

/-- `Population::Population` (population.hpp lines 73-82): the members are
initialised from the closed-form formulas; the body then checks only
`F_ == nullptr`, and in that case prints a fatal-error message and calls
`exit(EXIT_FAILURE)`.  `alloc` is the result of `aligned_alloc`
(`none` models `nullptr`); the first component collects the error output. -/
def populationCtor (alloc : Option (Nat → ℚ)) (Re U : ℚ) (L : Nat)
    (LAMBDA : ℚ) : List String × CtorResult PopulationObj :=
  match alloc with
  | none => (["Fatal error: Population could not be allocated."],
             .exited EXIT_FAILURE)
  | some buf => ([], .constructed
      { F := buf
        NU := populationNU Re U L
        TAU := populationTAU Re U L
        OMEGA := populationOMEGA Re U L
        LAMBDA := LAMBDA
        OMEGA_M := populationOMEGA_M Re U L LAMBDA })

/-- A constructed `Continuum` object: its buffer pointer `M_`, which may be
null (`none`) — the constructor does not rule that out. -/
structure ContinuumObj where
  M : Option (Nat → ℚ)

/-- `Continuum::Continuum` (continuum.hpp lines 38-44): when `aligned_alloc`
returned `nullptr` the constructor prints the fatal-error message but does
NOT call `exit`; construction completes with a null buffer either way. -/
def continuumCtor (alloc : Option (Nat → ℚ)) :
    List String × CtorResult ContinuumObj :=
  match alloc with
  | none => (["Fatal error: Population could not be allocated."],
             .constructed { M := none })
  | some buf => ([], .constructed { M := some buf })

/-- Messages main.cpp writes on the CLI paths (disclaimer.hpp is not among
the provided sources, so the texts are abstracted to tags). -/
inductive CliMsg where
  | disclaimer
  | convertError
  | usage
deriving DecidableEq

/-- What the argument dispatch of `main` decides to do. -/
inductive CliOutcome where
  | exitWith (code : Nat)
  | runSimulation
deriving DecidableEq

/-- The argument dispatch at the top of `main` (main.cpp lines 39-58):
`argc > 1` means the argument list is nonempty, and only `argv[1]` is
inspected. -/
def cliDispatch (args : List String) : List CliMsg × CliOutcome :=
  match args with
  | [] => ([], .runSimulation)
  | a :: _ =>
    if a = "--version" ∨ a = "--v" then
      ([.disclaimer], .exitWith EXIT_SUCCESS)
    else if a = "--convert" then
      ([.convertError], .exitWith EXIT_FAILURE)
    else if a = "--info" ∨ a = "--help" then
      ([.usage], .exitWith EXIT_SUCCESS)
    else ([], .runSimulation)

/-- Process exit status of `main` (main.cpp): the CLI dispatch may exit;
otherwise the simulation runs and `main` returns `EXIT_SUCCESS` (line 145),
unless the `Population` allocation failed, in which case its constructor
already exited with `EXIT_FAILURE`. -/
def mainExitStatus (args : List String) (allocOk : Bool) : Nat :=
  match (cliDispatch args).2 with
  | .exitWith c => c
  | .runSimulation => if allocOk then EXIT_SUCCESS else EXIT_FAILURE

/-- Modelled from the spec: the body of `Population::SpatialToLinear` lives
in population_indexing.hpp, which is not among the provided sources; only
its declaration (population.hpp lines 92-94) and the buffer size
`NZ*NY*NX*NPOP*ND` (line 46) are.  Modelled as the row-major layout onto
that flat buffer described by the spec, z slowest, with the cell-local slot
`n*OFF + d` and `ND = 2*OFF`. -/
def spatialToLinear (NX NY NPOP ND OFF x y z n d p : Nat) : Nat :=
  (((z * NY + y) * NX + x) * NPOP + p) * ND + (n * OFF + d)

/-- Modelled from the spec: `Population::LinearToSpatial`
(declared population.hpp lines 95-97, body not among the provided sources),
the inverse decoding by successive division and remainder; the components
are returned in the declaration's out-parameter order `(x,y,z,p,n,d)`. -/
def linearToSpatial (NX NY NPOP ND OFF i : Nat) :
    Nat × Nat × Nat × Nat × Nat × Nat :=
  (i / ND / NPOP % NX,
   i / ND / NPOP / NX % NY,
   i / ND / NPOP / NX / NY,
   i / ND % NPOP,
   i % ND / OFF,
   i % ND % OFF)

/-- `Population::Load` (population_indexing_avx.hpp lines 13-43): for both
halves `n = 0, 1` and all `d < OFF`, copy the buffer value at
`AA_IndexRead<odd>(x,y,z,n,d,p)` into `f[n*OFF + d]`, then set
`f[OFF] = 0.0`.  The cell-local array `f` is a map `Nat → ℚ` (its entries
start out arbitrary, as for the uninitialised C array), `F` is the
population buffer, and `idx n d` abstracts `AA_IndexRead<odd>(x,y,z,n,d,p)`,
whose body lives in population_indexing.hpp, not among the provided
sources — the routine is therefore modelled generically over the index
map, which the claim's property does not depend on. -/
def populationLoad (OFF : Nat) (F : Nat → ℚ) (idx : Nat → Nat → Nat)
    (f0 : Nat → ℚ) : Nat → ℚ :=
  Function.update
    ((List.range 2).foldl
      (fun f n => (List.range OFF).foldl
        (fun f d => Function.update f (n * OFF + d) (F (idx n d))) f) f0)
    OFF 0

/-- Events the main loop of main.cpp emits, in program order. -/
inductive Ev where
  | guoVelocityInlet (odd : Bool)
  | guoPressureOutlet (odd : Bool)
  | collideStream (odd : Bool)
  | bounceBackWall (odd : Bool)
  | statusOutput (i : Nat)
  | setZeroWall (i : Nat)
  | exportVtk (i : Nat)
deriving DecidableEq

/-- One parity pass of the main-loop body (main.cpp lines 115-118 for the
even pass, lines 121-124 for the odd pass): Guo velocity condition on the
inlet, Guo pressure condition on the outlet, fused collision+streaming over
the whole domain, halfway bounce-back on the wall list. -/
def parityPass (odd : Bool) : List Ev :=
  [.guoVelocityInlet odd, .guoPressureOutlet odd,
   .collideStream odd, .bounceBackWall odd]

/-- The save/export block (main.cpp lines 126-132), executed when
`save && i % (NT/10) == 0`: status output, `Macro.SetZero(wall)`, then
`Macro.ExportVtk(i)`. -/
def saveBlock (save : Bool) (NT i : Nat) : List Ev :=
  if save ∧ i % (NT / 10) = 0 then
    [.statusOutput i, .setZeroWall i, .exportVtk i]
  else []

/-- The body of one main-loop iteration at loop index `i`
(main.cpp lines 113-133): even parity pass, odd parity pass, save block. -/
def loopIter (save : Bool) (NT i : Nat) : List Ev :=
  parityPass false ++ parityPass true ++ saveBlock save NT i

/-- The main loop `for (size_t i = 0; i < NT; i += 2)`
(main.cpp lines 112-133), as the trace of events it emits from loop
index `i` on. -/
def mainLoop (save : Bool) (NT i : Nat) : List Ev :=
  if i < NT then loopIter save NT i ++ mainLoop save NT (i + 2) else []
termination_by NT - i
decreasing_by omega

/-- The full event trace of the time-stepping driver. -/
def mainTrace (save : Bool) (NT : Nat) : List Ev := mainLoop save NT 0

/-- Continuum state: the macroscopic buffer as a map keyed by cell
coordinates and slot `m` (0 = rho, 1 = ux, 2 = uy, 3 = uz).  The
flat-layout accessor `Continuum::operator()` (declared continuum.hpp
lines 57-58; its body, in continuum_indexing.hpp, is not among the provided
sources) is modelled as the identity keying, which is faithful for every
read-after-write property because the spec requires the accessor's
spatial-to-linear map to be a bijection. -/
def ConState : Type := Nat × Nat × Nat × Nat → ℚ

/-- A single assignment `con(x,y,z,m) = v`. -/
def conWrite (s : ConState) (x y z m : Nat) (v : ℚ) : ConState :=
  fun q => if q = (x, y, z, m) then v else s q

/-- The four assignments of the innermost loop body of `InitContinuum`
(initialisation.hpp lines 61-64). -/
def writeCell (s : ConState) (x y z : Nat) (R U V W : ℚ) : ConState :=
  conWrite (conWrite (conWrite (conWrite s x y z 0 R) x y z 1 U) x y z 2 V)
    x y z 3 W

/-- The four initial values by slot index. -/
def initVals (R U V W : ℚ) : Nat → ℚ :=
  fun m => if m = 0 then R else if m = 1 then U else if m = 2 then V
    else if m = 3 then W else 0

/-- `BLOCK_SIZE` (initialisation.hpp line 37, population.hpp line 50). -/
def BLOCK_SIZE : Nat := 32

/-- Modelled from the spec: `cef::ceil(n / BLOCK_SIZE)` — constexpr_func.hpp
is not among the provided sources; the spec and the claim describe the block
counts as ceil-division of the resolution by the block edge length, which
for exact `double` arithmetic on these magnitudes is `(n + 31) / 32`. -/
def numBlocksDim (n : Nat) : Nat := (n + BLOCK_SIZE - 1) / BLOCK_SIZE

/-- `NUM_BLOCKS = NUM_BLOCKS_X * NUM_BLOCKS_Y * NUM_BLOCKS_Z`
(initialisation.hpp line 41, population.hpp line 54). -/
def NUM_BLOCKS (NX NY NZ : Nat) : Nat :=
  numBlocksDim NX * numBlocksDim NY * numBlocksDim NZ

/-- `z_start` of block `b` (initialisation.hpp line 46). -/
def zStart (NX NY b : Nat) : Nat :=
  BLOCK_SIZE * (b / (numBlocksDim NX * numBlocksDim NY))

/-- `z_end` of block `b` (initialisation.hpp line 47). -/
def zEnd (NX NY NZ b : Nat) : Nat := min (zStart NX NY b + BLOCK_SIZE) NZ

/-- `y_start` of block `b` (initialisation.hpp line 51). -/
def yStart (NX NY b : Nat) : Nat :=
  BLOCK_SIZE * ((b % (numBlocksDim NX * numBlocksDim NY)) / numBlocksDim NX)

/-- `y_end` of block `b` (initialisation.hpp line 52). -/
def yEnd (NX NY b : Nat) : Nat := min (yStart NX NY b + BLOCK_SIZE) NY

/-- `x_start` of block `b` (initialisation.hpp line 56). -/
def xStart (NX b : Nat) : Nat := BLOCK_SIZE * (b % numBlocksDim NX)

/-- `x_end` of block `b` (initialisation.hpp line 57). -/
def xEnd (NX b : Nat) : Nat := min (xStart NX b + BLOCK_SIZE) NX

/-- The triple loop of one block of `InitContinuum`
(initialisation.hpp lines 46-67). -/
def blockWrite (NX NY NZ : Nat) (R U V W : ℚ) (s : ConState) (b : Nat) :
    ConState :=
  (List.range' (zStart NX NY b) (zEnd NX NY NZ b - zStart NX NY b)).foldl
    (fun s z =>
      (List.range' (yStart NX NY b) (yEnd NX NY b - yStart NX NY b)).foldl
        (fun s y =>
          (List.range' (xStart NX b) (xEnd NX b - xStart NX b)).foldl
            (fun s x => writeCell s x y z R U V W) s)
        s)
    s

/-- `InitContinuum` (initialisation.hpp lines 33-69): the block loop.  The
OpenMP-parallel loop is modelled sequentially; the claims about the result
state are parallelism-independent exactly when the block decomposition is
a partition, which is proved below. -/
def initContinuum (NX NY NZ : Nat) (R U V W : ℚ) (s : ConState) : ConState :=
  (List.range (NUM_BLOCKS NX NY NZ)).foldl (blockWrite NX NY NZ R U V W) s

/-- Cell `(x,y,z)` lies in the start/end ranges of block `b`. -/
def inBlock (NX NY NZ b x y z : Nat) : Prop :=
  (xStart NX b ≤ x ∧ x < xEnd NX b) ∧
  (yStart NX NY b ≤ y ∧ y < yEnd NX NY b) ∧
  (zStart NX NY b ≤ z ∧ z < zEnd NX NY NZ b)

instance (NX NY NZ b x y z : Nat) : Decidable (inBlock NX NY NZ b x y z) := by
  unfold inBlock; infer_instance

/-- The index of the unique block containing cell `(x,y,z)`. -/
def ownerBlock (NX NY x y z : Nat) : Nat :=
  (z / BLOCK_SIZE) * (numBlocksDim NX * numBlocksDim NY) +
    (y / BLOCK_SIZE) * numBlocksDim NX + x / BLOCK_SIZE

/-- The cells written by block `b` of `InitContinuum`, in loop order. -/
def blockCells (NX NY NZ b : Nat) : List (Nat × Nat × Nat) :=
  (List.range' (zStart NX NY b) (zEnd NX NY NZ b - zStart NX NY b)).flatMap
    (fun z =>
      (List.range' (yStart NX NY b) (yEnd NX NY b - yStart NX NY b)).flatMap
        (fun y =>
          (List.range' (xStart NX b) (xEnd NX b - xStart NX b)).map
            (fun x => (x, y, z))))

/-- All cell writes `InitContinuum` performs, in program order (each entry
stands for the four slot assignments at that cell). -/
def initCellWrites (NX NY NZ : Nat) : List (Nat × Nat × Nat) :=
  (List.range (NUM_BLOCKS NX NY NZ)).flatMap (blockCells NX NY NZ)

theorem encode_div (q r B : Nat) (h : r < B) : (q * B + r) / B = q := by
  have hB : 0 < B := by omega
  rw [Nat.add_comm, Nat.add_mul_div_right _ _ hB, Nat.div_eq_of_lt h,
    Nat.zero_add]

theorem encode_mod (q r B : Nat) (h : r < B) : (q * B + r) % B = r := by
  rw [Nat.add_comm, Nat.add_mul_mod_self_right, Nat.mod_eq_of_lt h]

/-- C6: for all valid coordinates, `LinearToSpatial` applied to
`SpatialToLinear (x,y,z,n,d,p)` recovers exactly `(x,y,z,p,n,d)`:
the spatial-to-linear map is injective onto the flat buffer and
`LinearToSpatial` is its inverse. -/
theorem indexing_bijection (NX NY NPOP OFF x y z n d p : Nat)
    (hx : x < NX) (hy : y < NY) (hp : p < NPOP) (hn : n < 2) (hd : d < OFF) :
    linearToSpatial NX NY NPOP (2 * OFF) OFF
        (spatialToLinear NX NY NPOP (2 * OFF) OFF x y z n d p) =
      (x, y, z, p, n, d) := by
  have hr : n * OFF + d < 2 * OFF := by
    have hcase : n = 0 ∨ n = 1 := by omega
    rcases hcase with h | h <;> subst h <;> omega
  unfold linearToSpatial spatialToLinear
  rw [encode_div _ _ _ hr, encode_mod _ _ _ hr, encode_div _ _ _ hp,
    encode_mod _ _ _ hp, encode_div _ _ _ hx, encode_mod _ _ _ hx,
    encode_div _ _ _ hy, encode_mod _ _ _ hy, encode_div _ _ _ hd,
    encode_mod _ _ _ hd]

/-- Witness for C6 at the driver's resolution `192 × 96 × 96`, one
population, D3Q27 (`OFF = 16`). -/
theorem indexing_bijection_witness :
    linearToSpatial 192 96 1 (2 * 16) 16
        (spatialToLinear 192 96 1 (2 * 16) 16 17 33 5 1 11 0) =
      (17, 33, 5, 0, 1, 11) :=
  indexing_bijection 192 96 1 16 17 33 5 1 11 0 (by decide) (by decide)
    (by decide) (by decide) (by decide)

/-- C5: every `Population` constructed with `Re > 0`, `U > 0`, `L > 0` has
`TAU_ > 1/2`, `OMEGA_ = 1/TAU_`, and `OMEGA_ ∈ (0, 2)`. -/
theorem population_relaxation_valid (Re U : ℚ) (L : Nat)
    (hRe : 0 < Re) (hU : 0 < U) (hL : 0 < L) :
    1/2 < populationTAU Re U L ∧
    populationOMEGA Re U L = 1 / populationTAU Re U L ∧
    0 < populationOMEGA Re U L ∧ populationOMEGA Re U L < 2 := by
  have hLq : (0:ℚ) < (L:ℚ) := by exact_mod_cast hL
  have hNU : 0 < populationNU Re U L := div_pos (mul_pos hU hLq) hRe
  have hdiv : 0 < populationNU Re U L / D3Q27_CS2 :=
    div_pos hNU (by norm_num [D3Q27_CS2])
  have hTAU : 1/2 < populationTAU Re U L := by
    unfold populationTAU; linarith
  have hT0 : 0 < populationTAU Re U L := by linarith
  refine ⟨hTAU, rfl, ?_, ?_⟩
  · exact one_div_pos.mpr hT0
  · unfold populationOMEGA
    rw [div_lt_iff₀ hT0]
    linarith

/-- Witness for C5 at the driver's parameters `Re = 1000`, `U = 0.05`,
`L = NY/5 = 19`. -/
theorem population_relaxation_valid_witness :
    (0:ℚ) < 1000 ∧ (0:ℚ) < 1/20 ∧ 0 < 19 ∧
      1/2 < populationTAU 1000 (1/20) 19 :=
  ⟨by norm_num, by norm_num, by norm_num,
    (population_relaxation_valid 1000 (1/20) 19 (by norm_num) (by norm_num)
      (by norm_num)).1⟩

/-- C1 (code bug): on a failed `aligned_alloc`, `Population`'s constructor
reports and exits with `EXIT_FAILURE`, but `Continuum`'s constructor only
prints its fatal-error message and then completes construction with a null
buffer — the process does not terminate on that path. -/
theorem alloc_failure_divergence :
    populationCtor none 1000 (1/20) 19 (1/4) =
      (["Fatal error: Population could not be allocated."],
        .exited EXIT_FAILURE) ∧
    continuumCtor none =
      (["Fatal error: Population could not be allocated."],
        .constructed { M := none }) ∧
    EXIT_FAILURE ≠ 0 :=
  ⟨rfl, rfl, by decide⟩

/-- C4 (counterexample): with `U = 0` the relaxation time is `1/2`, outside
the valid range `TAU > 1/2`, yet construction completes with no report at
all (empty error output, object constructed). -/
theorem population_ctor_tau_unchecked_cex :
    populationTAU 1000 0 19 ≤ 1/2 ∧
    populationCtor (some fun _ => 0) 1000 0 19 (1/4) =
      ([], .constructed
        { F := fun _ => 0
          NU := populationNU 1000 0 19
          TAU := populationTAU 1000 0 19
          OMEGA := populationOMEGA 1000 0 19
          LAMBDA := 1/4
          OMEGA_M := populationOMEGA_M 1000 0 19 (1/4) }) :=
  ⟨by norm_num [populationTAU, populationNU, D3Q27_CS2], rfl⟩

/-- C4 (amended): the constructor performs no validation of the relaxation
time: whenever allocation succeeds, construction completes silently with
the derived parameters, for every `Re`, `U`, `L`, `LAMBDA` — including
those with `TAU ≤ 1/2`; no report is made and no recovery or
auto-correction is attempted. -/
theorem population_ctor_no_tau_validation (Re U LAMBDA : ℚ) (L : Nat)
    (buf : Nat → ℚ) :
    populationCtor (some buf) Re U L LAMBDA =
      ([], .constructed
        { F := buf
          NU := populationNU Re U L
          TAU := populationTAU Re U L
          OMEGA := populationOMEGA Re U L
          LAMBDA := LAMBDA
          OMEGA_M := populationOMEGA_M Re U L LAMBDA }) := rfl

/-- C8: CLI dispatch — `--version`/`--v` print the disclaimer and exit 0;
`--help`/`--info` print usage and exit 0; `--convert` reports an error and
exits 1 before any work; no arguments runs the simulation, and `main`
then returns 0. -/
theorem cli_dispatch_spec :
    cliDispatch ["--version"] = ([.disclaimer], .exitWith 0) ∧
    cliDispatch ["--v"] = ([.disclaimer], .exitWith 0) ∧
    cliDispatch ["--help"] = ([.usage], .exitWith 0) ∧
    cliDispatch ["--info"] = ([.usage], .exitWith 0) ∧
    cliDispatch ["--convert"] = ([.convertError], .exitWith 1) ∧
    cliDispatch [] = ([], .runSimulation) ∧
    mainExitStatus [] true = 0 := by
  refine ⟨?_, ?_, ?_, ?_, ?_, rfl, rfl⟩ <;> decide

theorem loadInner_apply (OFF : Nat) (F : Nat → ℚ) (idx : Nat → Nat → Nat)
    (n : Nat) :
    ∀ (m : Nat) (f : Nat → ℚ) (k : Nat),
      ((List.range m).foldl
        (fun f d => Function.update f (n * OFF + d) (F (idx n d))) f) k =
      if n * OFF ≤ k ∧ k < n * OFF + m then F (idx n (k - n * OFF))
      else f k := by
  intro m
  induction m with
  | zero =>
    intro f k
    simp only [List.range_zero, List.foldl_nil]
    split
    · omega
    · rfl
  | succ m ih =>
    intro f k
    rw [List.range_succ, List.foldl_append]
    simp only [List.foldl_cons, List.foldl_nil]
    rw [Function.update_apply]
    by_cases hk : k = n * OFF + m
    · subst hk
      rw [if_pos rfl, if_pos (by omega : n * OFF ≤ n * OFF + m ∧
        n * OFF + m < n * OFF + (m + 1))]
      have hs : n * OFF + m - n * OFF = m := by omega
      rw [hs]
    · rw [if_neg hk, ih f k]
      by_cases h2 : n * OFF ≤ k ∧ k < n * OFF + m
      · rw [if_pos h2, if_pos (by omega : n * OFF ≤ k ∧ k < n * OFF + (m + 1))]
      · rw [if_neg h2, if_neg (by omega : ¬(n * OFF ≤ k ∧ k < n * OFF + (m + 1)))]

/-- C10: for every parity, population index and buffer state, `Load` fills
`f[n*OFF + d]` with the buffer value addressed by the index map for every
half `n < 2` and direction `d < OFF` except at slot `OFF` itself, and the
entry at index `OFF` is exactly `0` afterwards — regardless of the buffer
contents, so the value read for half `n = 1`, direction `d = 0` (which the
loop stored at `f[1*OFF + 0] = f[OFF]`) is always discarded. -/
theorem population_load_spec (OFF : Nat) (F : Nat → ℚ)
    (idx : Nat → Nat → Nat) (f0 : Nat → ℚ) :
    populationLoad OFF F idx f0 OFF = 0 ∧
    ∀ n d, n < 2 → d < OFF → n * OFF + d ≠ OFF →
      populationLoad OFF F idx f0 (n * OFF + d) = F (idx n d) := by
  constructor
  · unfold populationLoad
    exact Function.update_same ..
  · intro n d hn hd hne
    unfold populationLoad
    rw [Function.update_noteq hne]
    have h2 : List.range 2 = [0, 1] := rfl
    rw [h2]
    simp only [List.foldl_cons, List.foldl_nil]
    rw [loadInner_apply, loadInner_apply]
    have hcase : n = 0 ∨ n = 1 := by omega
    rcases hcase with h | h <;> subst h
    · rw [if_neg (by omega : ¬(1 * OFF ≤ 0 * OFF + d ∧
        0 * OFF + d < 1 * OFF + OFF)),
        if_pos (by omega : 0 * OFF ≤ 0 * OFF + d ∧ 0 * OFF + d < 0 * OFF + OFF)]
      have hs : 0 * OFF + d - 0 * OFF = d := by omega
      rw [hs]
    · rw [if_pos (by omega : 1 * OFF ≤ 1 * OFF + d ∧
        1 * OFF + d < 1 * OFF + OFF)]
      have hs : 1 * OFF + d - 1 * OFF = d := by omega
      rw [hs]

/-- Witness for C10 with `OFF = 16` (D3Q27), a concrete buffer, a concrete
index map and a concrete junk array. -/
theorem population_load_spec_witness :
    populationLoad 16 (fun k => (k : ℚ) + 1) (fun n d => n * 16 + d)
        (fun _ => 7) 16 = 0 ∧
    populationLoad 16 (fun k => (k : ℚ) + 1) (fun n d => n * 16 + d)
        (fun _ => 7) 19 = 20 := by
  constructor
  · exact (population_load_spec 16 (fun k => (k : ℚ) + 1)
      (fun n d => n * 16 + d) (fun _ => 7)).1
  · have h := (population_load_spec 16 (fun k => (k : ℚ) + 1)
      (fun n d => n * 16 + d) (fun _ => 7)).2 1 3 (by norm_num) (by norm_num)
      (by norm_num)
    norm_num at h
    exact h

theorem mainLoop_unfold (save : Bool) (NT i : Nat) :
    mainLoop save NT i =
      if i < NT then loopIter save NT i ++ mainLoop save NT (i + 2)
      else [] := by
  rw [mainLoop]

theorem mainLoop_eq_flatMap (save : Bool) (NT : Nat) :
    ∀ (k j : Nat), j + 2 * k = NT →
      mainLoop save NT j =
        (List.range k).flatMap (fun t => loopIter save NT (j + 2 * t)) := by
  intro k
  induction k with
  | zero =>
    intro j hj
    rw [mainLoop_unfold, if_neg (by omega)]
    simp
  | succ k ih =>
    intro j hj
    rw [mainLoop_unfold, if_pos (by omega), ih (j + 2) (by omega),
      List.range_succ_eq_map, List.flatMap_cons, List.flatMap_map]
    simp only [Nat.mul_zero, Nat.add_zero]
    have harg : (fun t => loopIter save NT (j + 2 + 2 * t)) =
        (fun a : Nat => loopIter save NT (j + 2 * a.succ)) := by
      funext t
      congr 1
      omega
    rw [harg]

theorem mainTrace_eq (save : Bool) (NT : Nat) (hNT : NT % 2 = 0) :
    mainTrace save NT =
      (List.range (NT / 2)).flatMap (fun t => loopIter save NT (2 * t)) := by
  have h := mainLoop_eq_flatMap save NT (NT / 2) 0 (by omega)
  unfold mainTrace
  simpa using h

theorem count_flatMap_ones {α : Type} [DecidableEq α] (l : List Nat)
    (f : Nat → List α) (a : α) (h : ∀ t ∈ l, (f t).count a = 1) :
    (l.flatMap f).count a = l.length := by
  induction l with
  | nil => simp
  | cons b l ih =>
    rw [List.flatMap_cons, List.count_append, h b (by simp),
      ih (fun t ht => h t (by simp [ht]))]
    simp
    omega

theorem saveBlock_count_enforcers (save : Bool) (NT i : Nat) (odd : Bool) :
    (saveBlock save NT i).count (Ev.guoVelocityInlet odd) = 0 ∧
    (saveBlock save NT i).count (Ev.guoPressureOutlet odd) = 0 ∧
    (saveBlock save NT i).count (Ev.collideStream odd) = 0 ∧
    (saveBlock save NT i).count (Ev.bounceBackWall odd) = 0 := by
  unfold saveBlock
  split <;> simp [List.count_cons]

theorem loopIter_count_guoVel (save : Bool) (NT i : Nat) (odd : Bool) :
    (loopIter save NT i).count (Ev.guoVelocityInlet odd) = 1 := by
  unfold loopIter
  rw [List.count_append, List.count_append,
    (saveBlock_count_enforcers save NT i odd).1]
  cases odd <;> decide

theorem loopIter_count_guoPres (save : Bool) (NT i : Nat) (odd : Bool) :
    (loopIter save NT i).count (Ev.guoPressureOutlet odd) = 1 := by
  unfold loopIter
  rw [List.count_append, List.count_append,
    (saveBlock_count_enforcers save NT i odd).2.1]
  cases odd <;> decide

theorem loopIter_count_collide (save : Bool) (NT i : Nat) (odd : Bool) :
    (loopIter save NT i).count (Ev.collideStream odd) = 1 := by
  unfold loopIter
  rw [List.count_append, List.count_append,
    (saveBlock_count_enforcers save NT i odd).2.2.1]
  cases odd <;> decide

theorem loopIter_count_bounce (save : Bool) (NT i : Nat) (odd : Bool) :
    (loopIter save NT i).count (Ev.bounceBackWall odd) = 1 := by
  unfold loopIter
  rw [List.count_append, List.count_append,
    (saveBlock_count_enforcers save NT i odd).2.2.2]
  cases odd <;> decide

/-- C2: with `NT` even, the driver performs `NT/2` loop iterations — `NT`
parity passes in total — each an even pass followed by an odd pass, each
pass being Guo velocity on the inlet, Guo pressure on the outlet, fused
collision+streaming, then bounce-back on the wall list; every boundary
enforcer and the collision pass occur exactly once per parity per
iteration, hence `NT/2` times per parity over the run. -/
theorem main_loop_structure (save : Bool) (NT : Nat) (hNT : NT % 2 = 0) :
    mainTrace save NT =
      (List.range (NT / 2)).flatMap (fun t =>
        parityPass false ++ parityPass true ++ saveBlock save NT (2 * t)) ∧
    ∀ odd : Bool,
      (mainTrace save NT).count (.guoVelocityInlet odd) = NT / 2 ∧
      (mainTrace save NT).count (.guoPressureOutlet odd) = NT / 2 ∧
      (mainTrace save NT).count (.collideStream odd) = NT / 2 ∧
      (mainTrace save NT).count (.bounceBackWall odd) = NT / 2 := by
  have htr := mainTrace_eq save NT hNT
  refine ⟨htr, fun odd => ⟨?_, ?_, ?_, ?_⟩⟩ <;> rw [htr]
  · rw [count_flatMap_ones _ _ _
      (fun t _ => loopIter_count_guoVel save NT (2 * t) odd)]
    exact List.length_range _
  · rw [count_flatMap_ones _ _ _
      (fun t _ => loopIter_count_guoPres save NT (2 * t) odd)]
    exact List.length_range _
  · rw [count_flatMap_ones _ _ _
      (fun t _ => loopIter_count_collide save NT (2 * t) odd)]
    exact List.length_range _
  · rw [count_flatMap_ones _ _ _
      (fun t _ => loopIter_count_bounce save NT (2 * t) odd)]
    exact List.length_range _

/-- Witness for C2 at `NT = 20`, saving enabled. -/
theorem main_loop_structure_witness :
    (mainTrace true 20).count (Ev.collideStream false) = 20 / 2 :=
  ((main_loop_structure true 20 (by decide)).2 false).2.2.1

theorem export_mem_iff (NT : Nat) (hNT : NT % 2 = 0) (i : Nat) :
    Ev.exportVtk i ∈ mainTrace true NT ↔
      i % 2 = 0 ∧ i < NT ∧ i % (NT / 10) = 0 := by
  rw [mainTrace_eq true NT hNT, List.mem_flatMap]
  constructor
  · rintro ⟨t, ht, hmem⟩
    rw [List.mem_range] at ht
    unfold loopIter parityPass saveBlock at hmem
    simp only [List.mem_append, List.mem_cons, List.not_mem_nil, or_false,
      false_or, reduceCtorEq] at hmem
    split at hmem
    · rename_i hcond
      simp only [List.mem_cons, List.not_mem_nil, or_false, reduceCtorEq,
        false_or, Ev.exportVtk.injEq] at hmem
      subst hmem
      exact ⟨by omega, by omega, hcond.2⟩
    · simp at hmem
  · rintro ⟨h1, h2, h3⟩
    refine ⟨i / 2, by rw [List.mem_range]; omega, ?_⟩
    have h2t : 2 * (i / 2) = i := by omega
    unfold loopIter saveBlock
    rw [h2t, if_pos ⟨rfl, h3⟩]
    simp [parityPass]

/-- C7: with saving enabled and `NT` even, a volumetric export happens at
loop index `i` exactly when `i` is an even loop index below `NT` with
`i % (NT/10) == 0`; and at every export the wall cells are zeroed
(`Macro.SetZero(wall)`) immediately before `Macro.ExportVtk(i)`. -/
theorem export_cadence (NT : Nat) (hNT : NT % 2 = 0) :
    (∀ i, Ev.exportVtk i ∈ mainTrace true NT ↔
      i % 2 = 0 ∧ i < NT ∧ i % (NT / 10) = 0) ∧
    (∀ i, Ev.exportVtk i ∈ mainTrace true NT →
      ∃ pre post, mainTrace true NT =
        pre ++ [Ev.setZeroWall i, Ev.exportVtk i] ++ post) := by
  refine ⟨export_mem_iff NT hNT, ?_⟩
  intro i hi
  obtain ⟨h1, h2, h3⟩ := (export_mem_iff NT hNT i).mp hi
  have h2t : 2 * (i / 2) = i := by omega
  have hsplit : List.range (NT / 2) =
      (List.range (i / 2) ++ [i / 2]) ++
        List.map (i / 2 + 1 + ·) (List.range (NT / 2 - (i / 2) - 1)) := by
    have hq : NT / 2 = (i / 2 + 1) + (NT / 2 - (i / 2) - 1) := by omega
    conv_lhs => rw [hq]
    rw [List.range_add, List.range_succ]
  have hiter : loopIter true NT (2 * (i / 2)) =
      (parityPass false ++ parityPass true ++ [Ev.statusOutput i]) ++
        [Ev.setZeroWall i, Ev.exportVtk i] := by
    unfold loopIter saveBlock
    rw [h2t, if_pos ⟨rfl, h3⟩]
    simp
  refine ⟨(List.range (i / 2)).flatMap (fun t => loopIter true NT (2 * t)) ++
      (parityPass false ++ parityPass true ++ [Ev.statusOutput i]),
    (List.map (i / 2 + 1 + ·) (List.range (NT / 2 - (i / 2) - 1))).flatMap
      (fun t => loopIter true NT (2 * t)), ?_⟩
  rw [mainTrace_eq true NT hNT, hsplit, List.flatMap_append,
    List.flatMap_append]
  simp only [List.flatMap_cons, List.flatMap_nil, List.append_nil]
  rw [hiter]
  simp [List.append_assoc]

/-- Witness for C7 at `NT = 20`: an export occurs at loop index 0. -/
theorem export_cadence_witness : Ev.exportVtk 0 ∈ mainTrace true 20 :=
  ((export_cadence 20 (by decide)).1 0).mpr (by decide)

theorem writeCell_apply (s : ConState) (x y z : Nat) (R U V W : ℚ)
    (a b c m : Nat) :
    writeCell s x y z R U V W (a, b, c, m) =
      if a = x ∧ b = y ∧ c = z ∧ m < 4 then initVals R U V W m
      else s (a, b, c, m) := by
  unfold writeCell conWrite initVals
  simp only [Prod.mk.injEq]
  split_ifs <;> first | rfl | omega

theorem foldX_apply (y z : Nat) (R U V W : ℚ) :
    ∀ (L : List Nat) (s : ConState) (a b c m : Nat),
      (L.foldl (fun s x => writeCell s x y z R U V W) s) (a, b, c, m) =
      if a ∈ L ∧ b = y ∧ c = z ∧ m < 4 then initVals R U V W m
      else s (a, b, c, m) := by
  intro L
  induction L with
  | nil => intro s a b c m; simp
  | cons hd t ih =>
    intro s a b c m
    rw [List.foldl_cons, ih]
    by_cases hmem : a ∈ t ∧ b = y ∧ c = z ∧ m < 4
    · rw [if_pos hmem, if_pos ⟨List.mem_cons_of_mem _ hmem.1, hmem.2⟩]
    · rw [if_neg hmem, writeCell_apply]
      by_cases h2 : a = hd ∧ b = y ∧ c = z ∧ m < 4
      · rw [if_pos h2, if_pos ⟨by simp [h2.1], h2.2⟩]
      · rw [if_neg h2, if_neg (by simp only [List.mem_cons]; tauto)]

theorem foldY_apply (z : Nat) (R U V W : ℚ) (Lx : List Nat) :
    ∀ (Ly : List Nat) (s : ConState) (a b c m : Nat),
      (Ly.foldl (fun s y =>
        Lx.foldl (fun s x => writeCell s x y z R U V W) s) s) (a, b, c, m) =
      if a ∈ Lx ∧ b ∈ Ly ∧ c = z ∧ m < 4 then initVals R U V W m
      else s (a, b, c, m) := by
  intro Ly
  induction Ly with
  | nil => intro s a b c m; simp
  | cons hd t ih =>
    intro s a b c m
    rw [List.foldl_cons, ih]
    by_cases hmem : a ∈ Lx ∧ b ∈ t ∧ c = z ∧ m < 4
    · rw [if_pos hmem,
        if_pos ⟨hmem.1, List.mem_cons_of_mem _ hmem.2.1, hmem.2.2⟩]
    · rw [if_neg hmem, foldX_apply]
      by_cases h2 : a ∈ Lx ∧ b = hd ∧ c = z ∧ m < 4
      · rw [if_pos h2, if_pos ⟨h2.1, by simp [h2.2.1], h2.2.2⟩]
      · rw [if_neg h2, if_neg (by simp only [List.mem_cons]; tauto)]

theorem foldZ_apply (R U V W : ℚ) (Lx Ly : List Nat) :
    ∀ (Lz : List Nat) (s : ConState) (a b c m : Nat),
      (Lz.foldl (fun s z => Ly.foldl (fun s y =>
        Lx.foldl (fun s x => writeCell s x y z R U V W) s) s) s) (a, b, c, m) =
      if a ∈ Lx ∧ b ∈ Ly ∧ c ∈ Lz ∧ m < 4 then initVals R U V W m
      else s (a, b, c, m) := by
  intro Lz
  induction Lz with
  | nil => intro s a b c m; simp
  | cons hd t ih =>
    intro s a b c m
    rw [List.foldl_cons, ih]
    by_cases hmem : a ∈ Lx ∧ b ∈ Ly ∧ c ∈ t ∧ m < 4
    · rw [if_pos hmem,
        if_pos ⟨hmem.1, hmem.2.1, List.mem_cons_of_mem _ hmem.2.2.1,
          hmem.2.2.2⟩]
    · rw [if_neg hmem, foldY_apply]
      by_cases h2 : a ∈ Lx ∧ b ∈ Ly ∧ c = hd ∧ m < 4
      · rw [if_pos h2, if_pos ⟨h2.1, h2.2.1, by simp [h2.2.2.1], h2.2.2.2⟩]
      · rw [if_neg h2, if_neg (by simp only [List.mem_cons]; tauto)]

theorem blockWrite_apply (NX NY NZ : Nat) (R U V W : ℚ) (s : ConState)
    (b : Nat) (a bb c m : Nat) :
    blockWrite NX NY NZ R U V W s b (a, bb, c, m) =
      if inBlock NX NY NZ b a bb c ∧ m < 4 then initVals R U V W m
      else s (a, bb, c, m) := by
  unfold blockWrite
  rw [foldZ_apply]
  have hiff : (a ∈ List.range' (xStart NX b) (xEnd NX b - xStart NX b) ∧
      bb ∈ List.range' (yStart NX NY b) (yEnd NX NY b - yStart NX NY b) ∧
      c ∈ List.range' (zStart NX NY b) (zEnd NX NY NZ b - zStart NX NY b) ∧
      m < 4) ↔ (inBlock NX NY NZ b a bb c ∧ m < 4) := by
    unfold inBlock
    simp only [List.mem_range'_1]
    omega
  rw [if_congr hiff rfl rfl]

theorem foldBlocks_untouched (NX NY NZ : Nat) (R U V W : ℚ) :
    ∀ (L : List Nat) (s : ConState) (a b c m : Nat),
      (∀ t ∈ L, ¬ inBlock NX NY NZ t a b c) →
      (L.foldl (blockWrite NX NY NZ R U V W) s) (a, b, c, m) =
        s (a, b, c, m) := by
  intro L
  induction L with
  | nil => intro s a b c m _; rfl
  | cons hd t ih =>
    intro s a b c m hnone
    rw [List.foldl_cons, ih _ a b c m (fun u hu => hnone u (by simp [hu])),
      blockWrite_apply]
    rw [if_neg (fun hcontra => hnone hd (by simp) hcontra.1)]

theorem encode3_lt (a1 a2 a3 n1 n2 n3 : Nat) (h1 : a1 < n1) (h2 : a2 < n2)
    (h3 : a3 < n3) : a3 * (n1 * n2) + a2 * n1 + a1 < n1 * n2 * n3 := by
  have step1 : a2 * n1 + a1 < n2 * n1 := by
    calc a2 * n1 + a1 < (a2 + 1) * n1 := by ring_nf; omega
    _ ≤ n2 * n1 := Nat.mul_le_mul_right n1 (by omega)
  calc a3 * (n1 * n2) + a2 * n1 + a1 < a3 * (n1 * n2) + n2 * n1 := by omega
  _ = (a3 + 1) * (n1 * n2) := by ring
  _ ≤ n3 * (n1 * n2) := Nat.mul_le_mul_right (n1 * n2) (by omega)
  _ = n1 * n2 * n3 := by ring

theorem decomp3 (a1 a2 a3 n1 n2 : Nat) (h1 : a1 < n1) (h2 : a2 < n2) :
    (a3 * (n1 * n2) + a2 * n1 + a1) % n1 = a1 ∧
    ((a3 * (n1 * n2) + a2 * n1 + a1) % (n1 * n2)) / n1 = a2 ∧
    (a3 * (n1 * n2) + a2 * n1 + a1) / (n1 * n2) = a3 := by
  have hr : a2 * n1 + a1 < n1 * n2 := by
    calc a2 * n1 + a1 < (a2 + 1) * n1 := by ring_nf; omega
    _ ≤ n2 * n1 := Nat.mul_le_mul_right n1 (by omega)
    _ = n1 * n2 := by ring
  have e1 : a3 * (n1 * n2) + a2 * n1 + a1 = (a3 * n2 + a2) * n1 + a1 := by
    ring
  have e2 : a3 * (n1 * n2) + a2 * n1 + a1 =
      a3 * (n1 * n2) + (a2 * n1 + a1) := by ring
  refine ⟨?_, ?_, ?_⟩
  · rw [e1, encode_mod _ _ _ h1]
  · rw [e2, encode_mod _ _ _ hr, encode_div _ _ _ h1]
  · rw [e2, encode_div _ _ _ hr]

theorem blockCoord_lt (n v : Nat) (h : v < n) :
    v / BLOCK_SIZE < numBlocksDim n := by
  unfold numBlocksDim BLOCK_SIZE
  omega

theorem ownerBlock_lt (NX NY NZ x y z : Nat) (hx : x < NX) (hy : y < NY)
    (hz : z < NZ) : ownerBlock NX NY x y z < NUM_BLOCKS NX NY NZ := by
  unfold ownerBlock NUM_BLOCKS
  exact encode3_lt _ _ _ _ _ _ (blockCoord_lt NX x hx) (blockCoord_lt NY y hy)
    (blockCoord_lt NZ z hz)

theorem inBlock_owner (NX NY NZ x y z : Nat) (hx : x < NX) (hy : y < NY)
    (hz : z < NZ) : inBlock NX NY NZ (ownerBlock NX NY x y z) x y z := by
  obtain ⟨d1, d2, d3⟩ := decomp3 (x / BLOCK_SIZE) (y / BLOCK_SIZE)
    (z / BLOCK_SIZE) (numBlocksDim NX) (numBlocksDim NY)
    (blockCoord_lt NX x hx) (blockCoord_lt NY y hy)
  unfold inBlock
  unfold xEnd yEnd zEnd
  unfold xStart yStart zStart
  unfold ownerBlock
  rw [d1, d2, d3]
  unfold BLOCK_SIZE
  refine ⟨⟨?_, ?_⟩, ⟨?_, ?_⟩, ⟨?_, ?_⟩⟩ <;> omega

theorem inBlock_unique (NX NY NZ b x y z : Nat)
    (h : inBlock NX NY NZ b x y z) : b = ownerBlock NX NY x y z := by
  obtain ⟨⟨hx1, hx2⟩, ⟨hy1, hy2⟩, ⟨hz1, hz2⟩⟩ := h
  unfold xEnd at hx2
  unfold xStart at hx1 hx2
  unfold yEnd at hy2
  unfold yStart at hy1 hy2
  unfold zEnd at hz2
  unfold zStart at hz1 hz2
  unfold BLOCK_SIZE at hx1 hx2 hy1 hy2 hz1 hz2
  have hbx : b % numBlocksDim NX = x / 32 := by
    generalize b % numBlocksDim NX = t at hx1 hx2
    omega
  have hby : (b % (numBlocksDim NX * numBlocksDim NY)) / numBlocksDim NX =
      y / 32 := by
    generalize (b % (numBlocksDim NX * numBlocksDim NY)) / numBlocksDim NX
      = t at hy1 hy2
    omega
  have hbz : b / (numBlocksDim NX * numBlocksDim NY) = z / 32 := by
    generalize b / (numBlocksDim NX * numBlocksDim NY) = t at hz1 hz2
    omega
  have e1 : numBlocksDim NX * numBlocksDim NY *
      (b / (numBlocksDim NX * numBlocksDim NY)) +
      b % (numBlocksDim NX * numBlocksDim NY) = b :=
    Nat.div_add_mod b _
  have e2 : numBlocksDim NX *
      ((b % (numBlocksDim NX * numBlocksDim NY)) / numBlocksDim NX) +
      (b % (numBlocksDim NX * numBlocksDim NY)) % numBlocksDim NX =
      b % (numBlocksDim NX * numBlocksDim NY) :=
    Nat.div_add_mod _ _
  have e3 : (b % (numBlocksDim NX * numBlocksDim NY)) % numBlocksDim NX =
      b % numBlocksDim NX :=
    Nat.mod_mod_of_dvd b (dvd_mul_right _ _)
  rw [hbz] at e1
  rw [e3, hbx, hby] at e2
  unfold ownerBlock BLOCK_SIZE
  calc b = numBlocksDim NX * numBlocksDim NY * (z / 32) +
        b % (numBlocksDim NX * numBlocksDim NY) := e1.symm
  _ = numBlocksDim NX * numBlocksDim NY * (z / 32) +
        (numBlocksDim NX * (y / 32) + x / 32) := by rw [e2]
  _ = (z / 32) * (numBlocksDim NX * numBlocksDim NY) +
        (y / 32) * numBlocksDim NX + x / 32 := by ring

/-- C3: after `InitContinuum(con, RHO_0, U_0, V_0, W_0)` and before any
time step, every cell `(x,y,z)` with `x<NX`, `y<NY`, `z<NZ` reads exactly
`(RHO_0, U_0, V_0, W_0)` in its four slots: density, then the three
velocity components. -/
theorem init_continuum_uniform (NX NY NZ : Nat) (R U V W : ℚ) (s : ConState)
    (x y z : Nat) (hx : x < NX) (hy : y < NY) (hz : z < NZ) :
    initContinuum NX NY NZ R U V W s (x, y, z, 0) = R ∧
    initContinuum NX NY NZ R U V W s (x, y, z, 1) = U ∧
    initContinuum NX NY NZ R U V W s (x, y, z, 2) = V ∧
    initContinuum NX NY NZ R U V W s (x, y, z, 3) = W := by
  have key : ∀ m, m < 4 →
      initContinuum NX NY NZ R U V W s (x, y, z, m) = initVals R U V W m := by
    intro m hm
    unfold initContinuum
    have hlt : ownerBlock NX NY x y z < NUM_BLOCKS NX NY NZ :=
      ownerBlock_lt NX NY NZ x y z hx hy hz
    have hsplit : List.range (NUM_BLOCKS NX NY NZ) =
        (List.range (ownerBlock NX NY x y z) ++ [ownerBlock NX NY x y z]) ++
          List.map (ownerBlock NX NY x y z + 1 + ·)
            (List.range
              (NUM_BLOCKS NX NY NZ - ownerBlock NX NY x y z - 1)) := by
      have hq : NUM_BLOCKS NX NY NZ = (ownerBlock NX NY x y z + 1) +
          (NUM_BLOCKS NX NY NZ - ownerBlock NX NY x y z - 1) := by omega
      conv_lhs => rw [hq]
      rw [List.range_add, List.range_succ]
    rw [hsplit, List.foldl_append, List.foldl_append]
    have hforall : ∀ t ∈ List.map (ownerBlock NX NY x y z + 1 + ·)
        (List.range (NUM_BLOCKS NX NY NZ - ownerBlock NX NY x y z - 1)),
        ¬ inBlock NX NY NZ t x y z := by
      intro t ht
      rw [List.mem_map] at ht
      obtain ⟨u, hu, rfl⟩ := ht
      intro hcontra
      have := inBlock_unique NX NY NZ _ x y z hcontra
      omega
    rw [foldBlocks_untouched NX NY NZ R U V W _ _ x y z m hforall]
    simp only [List.foldl_cons, List.foldl_nil]
    rw [blockWrite_apply,
      if_pos ⟨inBlock_owner NX NY NZ x y z hx hy hz, hm⟩]
  refine ⟨?_, ?_, ?_, ?_⟩
  · rw [key 0 (by omega)]; rfl
  · rw [key 1 (by omega)]; rfl
  · rw [key 2 (by omega)]; rfl
  · rw [key 3 (by omega)]; rfl

/-- Witness for C3: the spec's concrete scenario, a `16×16×16` domain with
`RHO_0 = 1`, `U_0 = 0.05`, `V_0 = 0`, `W_0 = 0`, checked at cell
`(3, 5, 7)`. -/
theorem init_continuum_uniform_witness :
    initContinuum 16 16 16 1 (1/20) 0 0 (fun _ => 0) (3, 5, 7, 0) = 1 ∧
    initContinuum 16 16 16 1 (1/20) 0 0 (fun _ => 0) (3, 5, 7, 1) = 1/20 ∧
    initContinuum 16 16 16 1 (1/20) 0 0 (fun _ => 0) (3, 5, 7, 2) = 0 ∧
    initContinuum 16 16 16 1 (1/20) 0 0 (fun _ => 0) (3, 5, 7, 3) = 0 :=
  init_continuum_uniform 16 16 16 1 (1/20) 0 0 (fun _ => 0) 3 5 7
    (by decide) (by decide) (by decide)

theorem countP_row (x y z yy zz : Nat) :
    ∀ (n xs : Nat),
      (((List.range' xs n).map (fun x' => (x', yy, zz))).countP
        (fun q => q == (x, y, z))) =
      if yy = y ∧ zz = z ∧ xs ≤ x ∧ x < xs + n then 1 else 0 := by
  intro n
  induction n with
  | zero =>
    intro xs
    rw [if_neg (by omega)]
    rfl
  | succ n ih =>
    intro xs
    rw [List.range'_succ, List.map_cons, List.countP_cons, ih (xs + 1)]
    have hbeq : ((((xs, yy, zz) : Nat × Nat × Nat) == (x, y, z)) = true) ↔
        (xs = x ∧ yy = y ∧ zz = z) := by
      rw [beq_iff_eq]
      simp [Prod.ext_iff]
    rw [if_congr hbeq rfl rfl]
    split_ifs <;> omega

theorem countP_plane (x y z zz : Nat) (nx xs : Nat) :
    ∀ (ny ys : Nat),
      (((List.range' ys ny).flatMap (fun y' =>
        (List.range' xs nx).map (fun x' => (x', y', zz)))).countP
          (fun q => q == (x, y, z))) =
      if zz = z ∧ ys ≤ y ∧ y < ys + ny ∧ xs ≤ x ∧ x < xs + nx then 1
      else 0 := by
  intro ny
  induction ny with
  | zero =>
    intro ys
    rw [if_neg (by omega)]
    rfl
  | succ ny ih =>
    intro ys
    rw [List.range'_succ, List.flatMap_cons, List.countP_append, ih (ys + 1),
      countP_row]
    split_ifs <;> omega

theorem countP_box (x y z : Nat) (nx xs ny ys : Nat) :
    ∀ (nz zs : Nat),
      (((List.range' zs nz).flatMap (fun z' =>
        (List.range' ys ny).flatMap (fun y' =>
          (List.range' xs nx).map (fun x' => (x', y', z'))))).countP
            (fun q => q == (x, y, z))) =
      if (zs ≤ z ∧ z < zs + nz) ∧ (ys ≤ y ∧ y < ys + ny) ∧
          (xs ≤ x ∧ x < xs + nx) then 1
      else 0 := by
  intro nz
  induction nz with
  | zero =>
    intro zs
    rw [if_neg (by omega)]
    rfl
  | succ nz ih =>
    intro zs
    rw [List.range'_succ, List.flatMap_cons, List.countP_append, ih (zs + 1),
      countP_plane]
    split_ifs <;> omega

theorem blockCells_countP (NX NY NZ b x y z : Nat) :
    (blockCells NX NY NZ b).countP (fun q => q == (x, y, z)) =
      if inBlock NX NY NZ b x y z then 1 else 0 := by
  unfold blockCells
  rw [countP_box]
  have hiff : ((zStart NX NY b ≤ z ∧
      z < zStart NX NY b + (zEnd NX NY NZ b - zStart NX NY b)) ∧
      (yStart NX NY b ≤ y ∧
        y < yStart NX NY b + (yEnd NX NY b - yStart NX NY b)) ∧
      (xStart NX b ≤ x ∧ x < xStart NX b + (xEnd NX b - xStart NX b))) ↔
      inBlock NX NY NZ b x y z := by
    unfold inBlock
    omega
  rw [if_congr hiff rfl rfl]

/-- C9: the 32-cell block decomposition partitions the domain — every cell
`(x,y,z)` with `x<NX`, `y<NY`, `z<NZ` lies in the ranges of exactly one
block index below `NUM_BLOCKS` (so distinct blocks' cell sets are disjoint
and their union covers the domain), and `InitContinuum`'s loop writes that
cell exactly once. -/
theorem block_partition (NX NY NZ x y z : Nat) (hx : x < NX) (hy : y < NY)
    (hz : z < NZ) :
    (∃! b, b < NUM_BLOCKS NX NY NZ ∧ inBlock NX NY NZ b x y z) ∧
    (initCellWrites NX NY NZ).countP (fun q => q == (x, y, z)) = 1 := by
  have hlt : ownerBlock NX NY x y z < NUM_BLOCKS NX NY NZ :=
    ownerBlock_lt NX NY NZ x y z hx hy hz
  have hown : inBlock NX NY NZ (ownerBlock NX NY x y z) x y z :=
    inBlock_owner NX NY NZ x y z hx hy hz
  constructor
  · refine ⟨ownerBlock NX NY x y z, ⟨hlt, hown⟩, ?_⟩
    exact fun b hb => inBlock_unique NX NY NZ b x y z hb.2
  · unfold initCellWrites
    have hsplit : List.range (NUM_BLOCKS NX NY NZ) =
        (List.range (ownerBlock NX NY x y z) ++ [ownerBlock NX NY x y z]) ++
          List.map (ownerBlock NX NY x y z + 1 + ·)
            (List.range
              (NUM_BLOCKS NX NY NZ - ownerBlock NX NY x y z - 1)) := by
      have hq : NUM_BLOCKS NX NY NZ = (ownerBlock NX NY x y z + 1) +
          (NUM_BLOCKS NX NY NZ - ownerBlock NX NY x y z - 1) := by omega
      conv_lhs => rw [hq]
      rw [List.range_add, List.range_succ]
    rw [hsplit, List.flatMap_append, List.flatMap_append,
      List.countP_append, List.countP_append]
    simp only [List.flatMap_cons, List.flatMap_nil, List.append_nil]
    rw [blockCells_countP, if_pos hown]
    have hlow : ((List.range (ownerBlock NX NY x y z)).flatMap
        (blockCells NX NY NZ)).countP (fun q => q == (x, y, z)) = 0 := by
      rw [List.countP_flatMap]
      apply List.sum_eq_zero
      intro v hv
      rw [List.mem_map] at hv
      obtain ⟨t, ht, rfl⟩ := hv
      rw [List.mem_range] at ht
      have hnb : ¬ inBlock NX NY NZ t x y z := fun hcontra => by
        have := inBlock_unique NX NY NZ t x y z hcontra
        omega
      simp only [Function.comp_apply, blockCells_countP, if_neg hnb]
    have hhigh : (((List.range
        (NUM_BLOCKS NX NY NZ - ownerBlock NX NY x y z - 1)).map
          (ownerBlock NX NY x y z + 1 + ·)).flatMap
            (blockCells NX NY NZ)).countP (fun q => q == (x, y, z)) = 0 := by
      rw [List.countP_flatMap]
      apply List.sum_eq_zero
      intro v hv
      rw [List.mem_map] at hv
      obtain ⟨t, ht, rfl⟩ := hv
      rw [List.mem_map] at ht
      obtain ⟨u, hu, rfl⟩ := ht
      rw [List.mem_range] at hu
      have hnb : ¬ inBlock NX NY NZ (ownerBlock NX NY x y z + 1 + u) x y z :=
        fun hcontra => by
          have := inBlock_unique NX NY NZ _ x y z hcontra
          omega
      simp only [Function.comp_apply, blockCells_countP, if_neg hnb]
    rw [hlow, hhigh]

/-- Witness for C9 at the driver's resolution `192×96×96` (54 blocks),
cell `(40, 50, 60)`. -/
theorem block_partition_witness :
    (∃! b, b < NUM_BLOCKS 192 96 96 ∧ inBlock 192 96 96 b 40 50 60) ∧
    (initCellWrites 192 96 96).countP (fun q => q == (40, 50, 60)) = 1 :=
  block_partition 192 96 96 40 50 60 (by decide) (by decide) (by decide)
